import Mathlib

/-!
Verification of the byte-transcoding scripts of `near-private-payroll`:
`ethereum-test/scripts/convert_proof_to_solidity.py` and
`scripts/compare_vk_constants.py`.

Python `bytes` values are embedded as `List Nat` whose entries are < 256.
Python `int` is embedded as `Nat` (all integers in these scripts are
non-negative).  Hex strings produced by `bytes.hex()` are embedded by the
byte sequence they encode (hex encoding of bytes is injective and the
scripts only ever compare such strings for equality), and decimal string
literals are embedded by the integer `int(...)` parses them to.
-/

namespace PayrollScripts

/-- Python `int.from_bytes(l, big)`: big-endian reading of a byte list. -/
def fromBytesBE (l : List Nat) : Nat := l.foldl (fun acc b => acc * 256 + b) 0

/-- `bytes_to_uint256_be` from `convert_proof_to_solidity.py`: reverse the
32-byte little-endian word, then interpret the result big-endian. -/
def bytes_to_uint256_be (data : List Nat) : Nat :=
  fromBytesBE data.reverse

/-- Python slice `bs[a:b]` for `0 ≤ a ≤ b` (out-of-range bounds clamp
silently, exactly as in Python). -/
def pySlice (bs : List Nat) (a b : Nat) : List Nat := (bs.take b).drop a

/-- The four top-level fields `main` slices out of the receipt bytes. -/
structure ReceiptFields where
  image_id : List Nat
  claim_digest : List Nat
  «seal» : List Nat
  journal : List Nat
deriving Repr, DecidableEq

/-- The receipt decomposition performed by `main`:
`image_id = receipt_bytes[0:32]`, `claim_digest = receipt_bytes[32:64]`,
`seal = receipt_bytes[64:320]`, `journal = receipt_bytes[320:464]`.
The script performs no length check: slicing truncates silently. -/
def decodeReceipt (receipt_bytes : List Nat) : ReceiptFields :=
  { image_id := pySlice receipt_bytes 0 32
    claim_digest := pySlice receipt_bytes 32 64
    «seal» := pySlice receipt_bytes 64 320
    journal := pySlice receipt_bytes 320 464 }

/-- `split_digest` from `convert_proof_to_solidity.py`: reverse the digest,
slice the reversed bytes `[16:32]` (lower) and `[0:16]` (upper), pad each
with 16 trailing zero bytes and read big-endian. -/
def split_digest (digest : List Nat) : Nat × Nat :=
  let reversed_digest := digest.reverse
  let lower_128 := pySlice reversed_digest 16 32
  let upper_128 := pySlice reversed_digest 0 16
  (fromBytesBE (lower_128 ++ List.replicate 16 0),
   fromBytesBE (upper_128 ++ List.replicate 16 0))

/-- `BN254_CONTROL_ID_BE = bytes.fromhex("2f4d79bb…966e4401")` from `main`
(64 hex digits, hence 32 bytes). -/
def BN254_CONTROL_ID_BE : List Nat :=
  [0x2f, 0x4d, 0x79, 0xbb, 0xb8, 0xa7, 0xd4, 0x0e,
   0x38, 0x10, 0xc5, 0x0b, 0x21, 0x83, 0x9b, 0xc6,
   0x1b, 0x2b, 0x9a, 0xe1, 0xb9, 0x6b, 0x0b, 0x00,
   0xb4, 0x45, 0x20, 0x17, 0x96, 0x6e, 0x44, 0x01]

/-- `bn254_id = int.from_bytes(BN254_CONTROL_ID_BE, big)` from `main`. -/
def bn254_id : Nat := fromBytesBE BN254_CONTROL_ID_BE

/-- The five-element `pubSignals` vector printed by `main`:
`[control_a0, control_a1, claim_c0, claim_c1, bn254_id]` where
`(control_a0, control_a1) = split_digest(image_id)` and
`(claim_c0, claim_c1) = split_digest(claim_digest)`. -/
def mainPublicSignals (receipt_bytes : List Nat) : List Nat :=
  let fields := decodeReceipt receipt_bytes
  let control := split_digest fields.image_id
  let claim := split_digest fields.claim_digest
  [control.1, control.2, claim.1, claim.2, bn254_id]

/-- Python `num.to_bytes(k, big)`: the `k`-byte big-endian encoding,
most significant byte first. -/
def natToBytesBE : Nat → Nat → List Nat
  | 0, _ => []
  | k + 1, n => n / 256 ^ k % 256 :: natToBytesBE k n

/-- `decimal_to_little_endian_hex` from `compare_vk_constants.py`: parse the
decimal string to an integer, encode as 32 big-endian bytes, reverse to
little-endian, hex-encode.  `int.to_bytes(32, big)` raises
`OverflowError` for integers of 33 or more bytes, modelled as `none`. -/
def decimal_to_little_endian_hex (num : Nat) : Option (List Nat) :=
  if num < 2 ^ 256 then some (natToBytesBE 32 num).reverse else none

/-- One output line of the comparison loop in `compare_constants`: the two
names, both canonical little-endian byte sequences, and the match flag
`risc0_hex == our_hex`. -/
structure CompareLine where
  risc0Name : String
  ourName : String
  risc0Hex : List Nat
  ourHex : List Nat
  ok : Bool
deriving Repr, DecidableEq

/-- One iteration of the loop in `compare_constants`: look up
`RISC0_CONSTANTS[risc0_name]` and `OUR_CONSTANTS[our_name]`, canonicalize
the decimal side, compare.  A failed dictionary lookup raises `KeyError`
(and an oversized integer raises `OverflowError`), modelled as `none`. -/
def compare_one (risc0 : String → Option Nat) (our : String → Option (List Nat))
    (p : String × String) : Option CompareLine := do
  let v ← risc0 p.1
  let risc0_hex ← decimal_to_little_endian_hex v
  let our_hex ← our p.2
  pure { risc0Name := p.1, ourName := p.2, risc0Hex := risc0_hex,
         ourHex := our_hex, ok := risc0_hex == our_hex }

/-- The comparison loop of `compare_constants`, over the mapping list.  An
uncaught Python exception (`KeyError` / `OverflowError`) in any iteration
aborts the whole run, modelled by `none`; otherwise the run yields the
ordered list of per-pair results. -/
def compare_constants_run (risc0 : String → Option Nat)
    (our : String → Option (List Nat)) :
    List (String × String) → Option (List CompareLine)
  | [] => some []
  | p :: rest => do
      let line ← compare_one risc0 our p
      let tail ← compare_constants_run risc0 our rest
      pure (line :: tail)

/-- The `mismatches` list accumulated by `compare_constants`: every compared
pair whose canonical values differ, in loop order. -/
def mismatchesOf (lines : List CompareLine) : List CompareLine :=
  lines.filter (fun l => !l.ok)

/-- The value `compare_constants` returns (and the process exits with):
`0` when the `all_match` flag survived every iteration, `1` otherwise. -/
def compareExitCode (lines : List CompareLine) : Nat :=
  if lines.all (fun l => l.ok) then 0 else 1

/-- Positional big-endian reading: every byte is weighted by 256 to the
number of bytes that follow it.  Used to state the splitting algorithm
independently of the fold in `fromBytesBE`. -/
def beValPos : List Nat → Nat
  | [] => 0
  | b :: bs => b * 256 ^ bs.length + beValPos bs

/-- Little-endian reading of a byte list: the integer a 32-byte
little-endian word denotes. -/
def leVal : List Nat → Nat
  | [] => 0
  | b :: bs => b + 256 * leVal bs

/-- Encoding an integer back into `k` raw little-endian bytes, least
significant byte first: the inverse direction of the round-trip property. -/
def natToBytesLE : Nat → Nat → List Nat
  | 0, _ => []
  | k + 1, n => n % 256 :: natToBytesLE k (n / 256)

/-- A one-entry decimal table holding the integer 5 under the name X, used
as concrete witness data. -/
def risc0Sample : String → Option Nat :=
  fun s => if s = "X" then some 5 else none

/-- The matching one-entry hex table: name Y holds the 32-byte little-endian
encoding of the same integer 5. -/
def ourSample : String → Option (List Nat) :=
  fun s => if s = "Y" then some (natToBytesBE 32 5).reverse else none

/-- `ourSample` with a single byte of entry Y changed (byte 0 set to 7). -/
def ourSampleFlipped : String → Option (List Nat) :=
  fun s => if s = "Y" then some (((natToBytesBE 32 5).reverse).set 0 7) else ourSample s

/-- The comparison line the sample tables produce, used as concrete witness
data. -/
def sampleLine : CompareLine :=
  { risc0Name := "X", ourName := "Y", risc0Hex := (natToBytesBE 32 5).reverse,
    ourHex := (natToBytesBE 32 5).reverse, ok := true }

/-! ### Arithmetic facts about the byte readings -/

/-- Unfolding a big-endian fold from an arbitrary accumulator. -/
theorem foldl_be_eq (l : List Nat) (acc : Nat) :
    l.foldl (fun a b => a * 256 + b) acc = acc * 256 ^ l.length + fromBytesBE l := by
  induction l generalizing acc with
  | nil => simp [fromBytesBE]
  | cons b bs ih =>
    simp only [List.foldl_cons, List.length_cons, fromBytesBE, Nat.zero_mul, Nat.zero_add]
    rw [ih (acc * 256 + b), ih b]
    ring

theorem fromBytesBE_cons (b : Nat) (bs : List Nat) :
    fromBytesBE (b :: bs) = b * 256 ^ bs.length + fromBytesBE bs := by
  have h := foldl_be_eq bs b
  simp only [fromBytesBE, List.foldl_cons, Nat.zero_mul, Nat.zero_add]
  rw [h]
  rfl

theorem fromBytesBE_append (l1 l2 : List Nat) :
    fromBytesBE (l1 ++ l2) = fromBytesBE l1 * 256 ^ l2.length + fromBytesBE l2 := by
  simp only [fromBytesBE, List.foldl_append]
  rw [foldl_be_eq]
  rfl

theorem fromBytesBE_replicate_zero (n : Nat) : fromBytesBE (List.replicate n 0) = 0 := by
  induction n with
  | zero => rfl
  | succ k ih => rw [List.replicate_succ, fromBytesBE_cons, ih]; simp

theorem fromBytesBE_append_zeros (l : List Nat) (n : Nat) :
    fromBytesBE (l ++ List.replicate n 0) = fromBytesBE l * 256 ^ n := by
  rw [fromBytesBE_append, fromBytesBE_replicate_zero, List.length_replicate]
  simp

theorem fromBytesBE_eq_zero_iff (l : List Nat) :
    fromBytesBE l = 0 ↔ ∀ b ∈ l, b = 0 := by
  induction l with
  | nil => simp [fromBytesBE]
  | cons b bs ih =>
    rw [fromBytesBE_cons]
    simp only [List.mem_cons]
    constructor
    · intro h
      have hpow : 0 < 256 ^ bs.length := by positivity
      have hb : b = 0 := by
        rcases Nat.mul_eq_zero.mp (by omega : b * 256 ^ bs.length = 0) with h1 | h1
        · exact h1
        · omega
      have hbs := ih.mp (by omega)
      rintro x (rfl | hx)
      · exact hb
      · exact hbs x hx
    · intro h
      have hb : b = 0 := h b (Or.inl rfl)
      have hbs : fromBytesBE bs = 0 := ih.mpr (fun x hx => h x (Or.inr hx))
      rw [hb, hbs]; simp

theorem fromBytesBE_lt (l : List Nat) (h : ∀ b ∈ l, b < 256) :
    fromBytesBE l < 256 ^ l.length := by
  induction l with
  | nil => simp [fromBytesBE]
  | cons b bs ih =>
    rw [fromBytesBE_cons]
    simp only [List.length_cons]
    have hb : b < 256 := h b (List.mem_cons_self _ _)
    have hbs := ih (fun x hx => h x (List.mem_cons_of_mem _ hx))
    have hpow : 0 < 256 ^ bs.length := by positivity
    calc b * 256 ^ bs.length + fromBytesBE bs
        < b * 256 ^ bs.length + 256 ^ bs.length := by omega
      _ = (b + 1) * 256 ^ bs.length := by ring
      _ ≤ 256 * 256 ^ bs.length := by
          have hb1 : b + 1 ≤ 256 := by omega
          exact Nat.mul_le_mul_right _ hb1
      _ = 256 ^ (bs.length + 1) := by ring

theorem fromBytesBE_eq_beValPos (l : List Nat) : fromBytesBE l = beValPos l := by
  induction l with
  | nil => rfl
  | cons b bs ih => rw [fromBytesBE_cons, beValPos, ih]

theorem fromBytesBE_singleton (b : Nat) : fromBytesBE [b] = b := by
  simp [fromBytesBE]

theorem bytes_to_uint256_be_eq_leVal (l : List Nat) : bytes_to_uint256_be l = leVal l := by
  induction l with
  | nil => rfl
  | cons b bs ih =>
    simp only [bytes_to_uint256_be, List.reverse_cons] at *
    rw [fromBytesBE_append, fromBytesBE_singleton, ih]
    simp only [List.length_singleton, leVal]
    ring

theorem natToBytesLE_leVal (w : List Nat) (hw : ∀ b ∈ w, b < 256) :
    natToBytesLE w.length (leVal w) = w := by
  induction w with
  | nil => rfl
  | cons b bs ih =>
    have hb : b < 256 := hw b (List.mem_cons_self _ _)
    have hbs : ∀ x ∈ bs, x < 256 := fun x hx => hw x (List.mem_cons_of_mem _ hx)
    simp only [List.length_cons, natToBytesLE, leVal]
    rw [show (b + 256 * leVal bs) % 256 = b by omega,
        show (b + 256 * leVal bs) / 256 = leVal bs by omega,
        ih hbs]

theorem mem_of_mem_pySlice {b : Nat} {l : List Nat} {a c : Nat}
    (h : b ∈ pySlice l a c) : b ∈ l :=
  List.mem_of_mem_take (List.mem_of_mem_drop h)

/-! ### Claims about `convert_proof_to_solidity.py` -/

/-- Claim C1 (counterexample): the spec asserts both split outputs are
strictly below 2^128, but for the digest whose first byte is 1 the low
output is exactly 2^128. -/
theorem split_digest_low_bound_counterexample :
    ¬ ((split_digest (1 :: List.replicate 31 0)).1 < 2 ^ 128) := by decide

/-- Claim C1 (amended): for every 32-byte digest, both outputs of
`split_digest` are strictly less than 2^256 (not 2^128: the 16 significant
bytes are padded with 16 trailing zero bytes, so each output is the
corresponding 128-bit half shifted up by 128 bits). -/
theorem split_digest_outputs_lt (digest : List Nat) (hlen : digest.length = 32)
    (hbytes : ∀ b ∈ digest, b < 256) :
    (split_digest digest).1 < 2 ^ 256 ∧ (split_digest digest).2 < 2 ^ 256 := by
  have hrev : digest.reverse.length = 32 := by simpa using hlen
  have hlow : (pySlice digest.reverse 16 32).length = 16 := by
    simp only [pySlice, List.length_drop, List.length_take]
    omega
  have hhigh : (pySlice digest.reverse 0 16).length = 16 := by
    simp only [pySlice, List.length_drop, List.length_take]
    omega
  have hbl : ∀ b ∈ pySlice digest.reverse 16 32, b < 256 := fun b hb =>
    hbytes b (List.mem_reverse.mp (mem_of_mem_pySlice hb))
  have hbh : ∀ b ∈ pySlice digest.reverse 0 16, b < 256 := fun b hb =>
    hbytes b (List.mem_reverse.mp (mem_of_mem_pySlice hb))
  have h1 := fromBytesBE_lt _ hbl
  have h2 := fromBytesBE_lt _ hbh
  rw [hlow] at h1
  rw [hhigh] at h2
  constructor
  · show fromBytesBE (pySlice digest.reverse 16 32 ++ List.replicate 16 0) < 2 ^ 256
    rw [fromBytesBE_append_zeros]
    calc fromBytesBE (pySlice digest.reverse 16 32) * 256 ^ 16
        < 256 ^ 16 * 256 ^ 16 := mul_lt_mul_of_pos_right h1 (by positivity)
      _ = 2 ^ 256 := by norm_num
  · show fromBytesBE (pySlice digest.reverse 0 16 ++ List.replicate 16 0) < 2 ^ 256
    rw [fromBytesBE_append_zeros]
    calc fromBytesBE (pySlice digest.reverse 0 16) * 256 ^ 16
        < 256 ^ 16 * 256 ^ 16 := mul_lt_mul_of_pos_right h2 (by positivity)
      _ = 2 ^ 256 := by norm_num

/-- Witness for the amended Claim C1 at the all-zero digest. -/
theorem split_digest_outputs_lt_witness :
    (split_digest (List.replicate 32 0)).1 < 2 ^ 256 ∧
    (split_digest (List.replicate 32 0)).2 < 2 ^ 256 :=
  split_digest_outputs_lt _ (by decide) (by decide)

/-- Claim C3: for every 32-byte digest, `split_digest` reverses the digest,
reads bytes [16,32) of the reversal followed by 16 trailing zero bytes as a
big-endian number (the low output), and bytes [0,16) of the reversal under
the same padding (the high output); stated with the positional reading
`beValPos`. -/
theorem split_digest_algorithm (digest : List Nat) (hlen : digest.length = 32) :
    (split_digest digest).1 = beValPos (digest.reverse.drop 16 ++ List.replicate 16 0) ∧
    (split_digest digest).2 = beValPos (digest.reverse.take 16 ++ List.replicate 16 0) := by
  have hrev : digest.reverse.length = 32 := by simpa using hlen
  constructor
  · show fromBytesBE (pySlice digest.reverse 16 32 ++ List.replicate 16 0) = _
    rw [← fromBytesBE_eq_beValPos, pySlice, List.take_of_length_le (by omega)]
  · show fromBytesBE (pySlice digest.reverse 0 16 ++ List.replicate 16 0) = _
    rw [← fromBytesBE_eq_beValPos, pySlice, List.drop_zero]

/-- Witness for Claim C3 at the digest of bytes 0,1,…,31. -/
theorem split_digest_algorithm_witness :
    (split_digest (List.range 32)).1 =
      beValPos ((List.range 32).reverse.drop 16 ++ List.replicate 16 0) ∧
    (split_digest (List.range 32)).2 =
      beValPos ((List.range 32).reverse.take 16 ++ List.replicate 16 0) :=
  split_digest_algorithm _ (by decide)

/-- Claim C9 (counterexample): for the digest of 31 zero bytes followed by
0x01, the high output is 2^248, not the value 0x00…01 = 1 that the claim
names. -/
theorem split_digest_scenario_a_counterexample :
    (split_digest (List.replicate 31 0 ++ [1])).2 = 2 ^ 248 ∧ (2 ^ 248 : Nat) ≠ 1 := by
  decide

/-- Claim C9 (amended): for the digest of 31 zero bytes followed by 0x01,
the reversed digest is 0x01 followed by 31 zero bytes, the low output is 0,
and the high output is 2^248 — the value whose 32-byte big-endian encoding
is 0x01 followed by 31 zero bytes (only nonzero byte 0x01, in the most
significant position). -/
theorem split_digest_scenario_a :
    (List.replicate 31 0 ++ [1]).reverse = 1 :: List.replicate 31 0 ∧
    (split_digest (List.replicate 31 0 ++ [1])).1 = 0 ∧
    (split_digest (List.replicate 31 0 ++ [1])).2 = 2 ^ 248 ∧
    natToBytesBE 32 (2 ^ 248) = 1 :: List.replicate 31 0 := by
  decide

/-- Claim C10: for every 32-byte digest, each split output is the
big-endian value of its 16-byte half of the reversed digest multiplied by
2^128 (hence a multiple of 2^128), and it is zero exactly when the source
half of the original digest — bytes [0,16) for low, bytes [16,32) for
high — is all zero bytes. -/
theorem split_digest_halves_shifted (digest : List Nat) (hlen : digest.length = 32) :
    (split_digest digest).1 = fromBytesBE (digest.reverse.drop 16) * 2 ^ 128 ∧
    (split_digest digest).2 = fromBytesBE (digest.reverse.take 16) * 2 ^ 128 ∧
    2 ^ 128 ∣ (split_digest digest).1 ∧ 2 ^ 128 ∣ (split_digest digest).2 ∧
    ((split_digest digest).1 = 0 ↔ ∀ b ∈ digest.take 16, b = 0) ∧
    ((split_digest digest).2 = 0 ↔ ∀ b ∈ digest.drop 16, b = 0) := by
  have hrev : digest.reverse.length = 32 := by simpa using hlen
  have e1 : (split_digest digest).1 = fromBytesBE (digest.reverse.drop 16) * 2 ^ 128 := by
    show fromBytesBE (pySlice digest.reverse 16 32 ++ List.replicate 16 0) = _
    rw [fromBytesBE_append_zeros, pySlice, List.take_of_length_le (by omega)]
    norm_num
  have e2 : (split_digest digest).2 = fromBytesBE (digest.reverse.take 16) * 2 ^ 128 := by
    show fromBytesBE (pySlice digest.reverse 0 16 ++ List.replicate 16 0) = _
    rw [fromBytesBE_append_zeros, pySlice, List.drop_zero]
    norm_num
  have hd : digest.reverse.drop 16 = (digest.take 16).reverse := by
    rw [List.reverse_take, hlen]
  have ht : digest.reverse.take 16 = (digest.drop 16).reverse := by
    rw [List.reverse_drop, hlen]
  have hp : (2 : Nat) ^ 128 ≠ 0 := by positivity
  refine ⟨e1, e2, ⟨_, by rw [e1, Nat.mul_comm]⟩, ⟨_, by rw [e2, Nat.mul_comm]⟩, ?_, ?_⟩
  · rw [e1, Nat.mul_eq_zero, hd]
    constructor
    · rintro (h0 | h0)
      · intro b hb
        exact (fromBytesBE_eq_zero_iff _).mp h0 b (List.mem_reverse.mpr hb)
      · exact absurd h0 hp
    · intro h
      exact Or.inl ((fromBytesBE_eq_zero_iff _).mpr
        (fun b hb => h b (List.mem_reverse.mp hb)))
  · rw [e2, Nat.mul_eq_zero, ht]
    constructor
    · rintro (h0 | h0)
      · intro b hb
        exact (fromBytesBE_eq_zero_iff _).mp h0 b (List.mem_reverse.mpr hb)
      · exact absurd h0 hp
    · intro h
      exact Or.inl ((fromBytesBE_eq_zero_iff _).mpr
        (fun b hb => h b (List.mem_reverse.mp hb)))

/-- Witness for Claim C10 at the digest whose first half is zero and whose
second half is 16 bytes of 3. -/
theorem split_digest_halves_shifted_witness :
    (split_digest (List.replicate 16 0 ++ List.replicate 16 3)).1 =
      fromBytesBE ((List.replicate 16 0 ++ List.replicate 16 3).reverse.drop 16) * 2 ^ 128 ∧
    (split_digest (List.replicate 16 0 ++ List.replicate 16 3)).2 =
      fromBytesBE ((List.replicate 16 0 ++ List.replicate 16 3).reverse.take 16) * 2 ^ 128 ∧
    2 ^ 128 ∣ (split_digest (List.replicate 16 0 ++ List.replicate 16 3)).1 ∧
    2 ^ 128 ∣ (split_digest (List.replicate 16 0 ++ List.replicate 16 3)).2 ∧
    ((split_digest (List.replicate 16 0 ++ List.replicate 16 3)).1 = 0 ↔
      ∀ b ∈ (List.replicate 16 0 ++ List.replicate 16 3).take 16, b = 0) ∧
    ((split_digest (List.replicate 16 0 ++ List.replicate 16 3)).2 = 0 ↔
      ∀ b ∈ (List.replicate 16 0 ++ List.replicate 16 3).drop 16, b = 0) :=
  split_digest_halves_shifted _ (by decide)

/-- Claim C4: for every 32-byte sequence `w`, converting `w` to the
external big-endian uint256 with `bytes_to_uint256_be` and re-encoding that
integer as 32 little-endian raw bytes reproduces `w` exactly. -/
theorem bytes_to_uint256_be_roundtrip (w : List Nat) (hlen : w.length = 32)
    (hbytes : ∀ b ∈ w, b < 256) :
    natToBytesLE 32 (bytes_to_uint256_be w) = w := by
  rw [bytes_to_uint256_be_eq_leVal, ← hlen, natToBytesLE_leVal w hbytes]

/-- Witness for Claim C4 at the word with byte 7 in the most significant
(last little-endian) position. -/
theorem bytes_to_uint256_be_roundtrip_witness :
    natToBytesLE 32 (bytes_to_uint256_be (List.replicate 31 0 ++ [7])) =
      List.replicate 31 0 ++ [7] :=
  bytes_to_uint256_be_roundtrip _ (by decide) (by decide)

set_option maxRecDepth 10000 in
/-- Claim C2 (counterexample): `main` performs no length validation — a
463-byte input is not rejected; it is sliced into a partial decode whose
journal has only 143 bytes. -/
theorem decodeReceipt_no_rejection_counterexample :
    decodeReceipt (List.replicate 463 0) =
      { image_id := List.replicate 32 0, claim_digest := List.replicate 32 0,
        «seal» := List.replicate 256 0, journal := List.replicate 143 0 } := by
  decide

/-- Claim C2 (amended): the decoder performs no length check and rejects
nothing: it is total, slicing any input at the fixed offsets (truncating
silently when the input is short).  Every input of exactly 464 bytes —
regardless of content — decodes into fields of widths 32, 32, 256 and 144
whose concatenation is the whole input. -/
theorem decodeReceipt_fixed_layout (bs : List Nat) (hlen : bs.length = 464) :
    (decodeReceipt bs).image_id.length = 32 ∧
    (decodeReceipt bs).claim_digest.length = 32 ∧
    (decodeReceipt bs).«seal».length = 256 ∧
    (decodeReceipt bs).journal.length = 144 ∧
    (decodeReceipt bs).image_id ++ ((decodeReceipt bs).claim_digest ++
      ((decodeReceipt bs).«seal» ++ (decodeReceipt bs).journal)) = bs := by
  have h1 : pySlice bs 0 32 = bs.take 32 := by
    rw [pySlice, List.drop_zero]
  have h2 : pySlice bs 32 64 = (bs.drop 32).take 32 := by
    rw [pySlice, List.drop_take]
  have h3 : pySlice bs 64 320 = (bs.drop 64).take 256 := by
    rw [pySlice, List.drop_take]
  have h4 : pySlice bs 320 464 = bs.drop 320 := by
    rw [pySlice, List.take_of_length_le (by omega)]
  refine ⟨?_, ?_, ?_, ?_, ?_⟩
  · show (pySlice bs 0 32).length = 32
    rw [h1, List.length_take]
    omega
  · show (pySlice bs 32 64).length = 32
    rw [h2, List.length_take, List.length_drop]
    omega
  · show (pySlice bs 64 320).length = 256
    rw [h3, List.length_take, List.length_drop]
    omega
  · show (pySlice bs 320 464).length = 144
    rw [h4, List.length_drop]
    omega
  · show pySlice bs 0 32 ++ (pySlice bs 32 64 ++ (pySlice bs 64 320 ++ pySlice bs 320 464)) = bs
    rw [h1, h2, h3, h4,
        show bs.drop 320 = (bs.drop 64).drop 256 by rw [List.drop_drop],
        List.take_append_drop,
        show bs.drop 64 = (bs.drop 32).drop 32 by rw [List.drop_drop],
        List.take_append_drop, List.take_append_drop]

/-- Witness for the amended Claim C2 at the all-sevens 464-byte input. -/
theorem decodeReceipt_fixed_layout_witness :
    (decodeReceipt (List.replicate 464 7)).image_id.length = 32 ∧
    (decodeReceipt (List.replicate 464 7)).claim_digest.length = 32 ∧
    (decodeReceipt (List.replicate 464 7)).«seal».length = 256 ∧
    (decodeReceipt (List.replicate 464 7)).journal.length = 144 ∧
    (decodeReceipt (List.replicate 464 7)).image_id ++
      ((decodeReceipt (List.replicate 464 7)).claim_digest ++
      ((decodeReceipt (List.replicate 464 7)).«seal» ++
        (decodeReceipt (List.replicate 464 7)).journal)) = List.replicate 464 7 :=
  decodeReceipt_fixed_layout _ (List.length_replicate 464 7)

/-- Claim C8: the pubSignals vector printed by `main` is the ordered
five-element sequence of the two split halves of `image_id`
(`receipt_bytes[0:32]`), the two split halves of `claim_digest`
(`receipt_bytes[32:64]`), and the fixed control id constant read as a
big-endian unsigned integer (whose value is the 0x2f4d…4401 literal). -/
theorem mainPublicSignals_structure (receipt_bytes : List Nat) :
    mainPublicSignals receipt_bytes =
      [(split_digest (pySlice receipt_bytes 0 32)).1,
       (split_digest (pySlice receipt_bytes 0 32)).2,
       (split_digest (pySlice receipt_bytes 32 64)).1,
       (split_digest (pySlice receipt_bytes 32 64)).2,
       fromBytesBE BN254_CONTROL_ID_BE] ∧
    bn254_id = 0x2f4d79bbb8a7d40e3810c50b21839bc61b2b9ae1b96b0b00b4452017966e4401 ∧
    (mainPublicSignals receipt_bytes).length = 5 :=
  ⟨rfl, by decide, rfl⟩

/-! ### Facts about `compare_vk_constants.py` -/

theorem compare_constants_run_cons (risc0 : String → Option Nat)
    (our : String → Option (List Nat)) (q : String × String)
    (rest : List (String × String)) :
    compare_constants_run risc0 our (q :: rest) =
      (compare_one risc0 our q).bind (fun line =>
        (compare_constants_run risc0 our rest).bind (fun tail =>
          some (line :: tail))) := rfl

theorem compare_one_eq_none (risc0 : String → Option Nat)
    (our : String → Option (List Nat)) (p : String × String)
    (h : risc0 p.1 = none ∨ our p.2 = none) :
    compare_one risc0 our p = none := by
  rcases h with hf | hf
  · simp [compare_one, hf]
  · cases hr : risc0 p.1 with
    | none => simp [compare_one, hr]
    | some v =>
      cases hd : decimal_to_little_endian_hex v with
      | none => simp [compare_one, hr, hd]
      | some rh => simp [compare_one, hr, hd, hf]

/-- The result of one comparison when both lookups succeed and the decimal
value fits in 32 bytes. -/
theorem compare_one_eq (risc0 : String → Option Nat)
    (our : String → Option (List Nat)) (p : String × String) (n : Nat)
    (v : List Nat) (hn : n < 2 ^ 256) (hr : risc0 p.1 = some n)
    (ho : our p.2 = some v) :
    compare_one risc0 our p =
      some { risc0Name := p.1, ourName := p.2,
             risc0Hex := (natToBytesBE 32 n).reverse, ourHex := v,
             ok := (natToBytesBE 32 n).reverse == v } := by
  have hn2 : n < 115792089237316195423570985008687907853269984665640564039457584007913129639936 := by
    norm_num at hn
    exact hn
  simp [compare_one, hr, ho, decimal_to_little_endian_hex, hn2]

theorem compare_constants_run_length (risc0 : String → Option Nat)
    (our : String → Option (List Nat)) (maps : List (String × String)) :
    ∀ lines : List CompareLine,
      compare_constants_run risc0 our maps = some lines →
      lines.length = maps.length := by
  induction maps with
  | nil =>
    intro lines h
    simp only [compare_constants_run] at h
    cases h
    rfl
  | cons q rest ih =>
    intro lines h
    rw [compare_constants_run_cons] at h
    cases hone : compare_one risc0 our q with
    | none => rw [hone] at h; simp at h
    | some line =>
      rw [hone] at h
      cases htail : compare_constants_run risc0 our rest with
      | none => rw [htail] at h; simp at h
      | some tail =>
        rw [htail] at h
        simp only [Option.some_bind, Option.some.injEq] at h
        rw [← h]
        simp [ih tail htail]

/-- Setting position `i` of a byte list to a different byte yields a
different list. -/
theorem set_single_byte_ne (l : List Nat) (i b : Nat) (hi : i < l.length)
    (hne : b ≠ l.get ⟨i, hi⟩) : l.set i b ≠ l := by
  intro heq
  apply hne
  have h1 : (l.set i b)[i]? = some b := by
    rw [List.getElem?_set_self]
    simpa using hi
  rw [heq, List.getElem?_eq_getElem hi] at h1
  exact (Option.some.inj h1).symm

/-- Claim C5 (counterexample): with the first mapped name absent from the
decimal table, the run aborts with no result at all, even though the
remaining pair compares fine on its own — the remaining comparison is not
performed or reported. -/
theorem compare_missing_key_counterexample :
    compare_constants_run (fun s => if s = "B" then some 1 else none)
      (fun _ => some (natToBytesBE 32 1).reverse)
      [("A", "A2"), ("B", "B2")] = none ∧
    compare_constants_run (fun s => if s = "B" then some 1 else none)
      (fun _ => some (natToBytesBE 32 1).reverse) [("B", "B2")] =
      some [{ risc0Name := "B", ourName := "B2",
                risc0Hex := (natToBytesBE 32 1).reverse,
                ourHex := (natToBytesBE 32 1).reverse, ok := true }] := by
  constructor
  · decide
  · decide

/-- Claim C5 (amended): a mapped constant name absent from one of the two
tables raises an uncaught `KeyError` that aborts the whole comparison run:
no per-pair result is produced, the remaining comparisons included. -/
theorem compare_missing_key_aborts (risc0 : String → Option Nat)
    (our : String → Option (List Nat)) (maps : List (String × String))
    (h : ∃ p ∈ maps, risc0 p.1 = none ∨ our p.2 = none) :
    compare_constants_run risc0 our maps = none := by
  induction maps with
  | nil => simp at h
  | cons q rest ih =>
    rcases h with ⟨p, hp, hfail⟩
    rcases List.mem_cons.mp hp with rfl | hmem
    · rw [compare_constants_run_cons, compare_one_eq_none risc0 our p hfail]
      rfl
    · rw [compare_constants_run_cons, ih ⟨p, hmem, hfail⟩]
      cases compare_one risc0 our q <;> rfl

/-- Witness for the amended Claim C5: the first mapped name is missing from
the decimal table, so the run yields no result. -/
theorem compare_missing_key_aborts_witness :
    compare_constants_run (fun s => if s = "B" then some 2 else none)
      (fun _ => some (natToBytesBE 32 2).reverse)
      [("A", "A2"), ("B", "B2")] = none :=
  compare_missing_key_aborts _ _ _ ⟨("A", "A2"), by decide, Or.inl (by decide)⟩

/-- Claim C6: when every mapped pair is derived from one underlying
unsigned integer below 2^256 — the decimal table holding the integer, the
hex table holding its 32-byte little-endian encoding — the cross-checker
reports every pair as a match; and changing a single byte of the hex
encoding of the one entry `name` (position `i` set to a different byte `b`)
makes exactly the comparisons against `name` report a mismatch, leaving
every other comparison line completely unchanged. -/
theorem compare_match_and_single_byte_flip
    (risc0 : String → Option Nat) (our our2 : String → Option (List Nat))
    (maps : List (String × String))
    (hderiv : ∀ p ∈ maps, ∃ n, n < 2 ^ 256 ∧ risc0 p.1 = some n ∧
      our p.2 = some (natToBytesBE 32 n).reverse)
    (name : String) (orig : List Nat) (i b : Nat)
    (horig : our name = some orig)
    (hi : i < orig.length) (hbyte : b < 256) (hne : b ≠ orig.get ⟨i, hi⟩)
    (hour2 : ∀ s, our2 s = if s = name then some (orig.set i b) else our s) :
    ∃ lines lines2,
      compare_constants_run risc0 our maps = some lines ∧
      compare_constants_run risc0 our2 maps = some lines2 ∧
      (∀ l ∈ lines, l.ok = true) ∧
      List.Forall₂ (fun l l2 =>
        l2.ourName = l.ourName ∧
        (l.ourName ≠ name → l2 = l) ∧
        (l.ourName = name → l2.ok = false)) lines lines2 ∧
      (name ∈ maps.map Prod.snd → ∃ l2 ∈ lines2, l2.ok = false) := by
  induction maps with
  | nil =>
    exact ⟨[], [], rfl, rfl, by simp, List.Forall₂.nil, by simp⟩
  | cons q rest ih =>
    obtain ⟨n, hn, hr, ho⟩ := hderiv q (List.mem_cons_self _ _)
    obtain ⟨ls, ls2, hrun, hrun2, hok, hrel, hmm⟩ :=
      ih (fun p hp => hderiv p (List.mem_cons_of_mem _ hp))
    have honeT : compare_one risc0 our q =
        some { risc0Name := q.1, ourName := q.2,
               risc0Hex := (natToBytesBE 32 n).reverse,
               ourHex := (natToBytesBE 32 n).reverse, ok := true } := by
      rw [compare_one_eq risc0 our q n _ hn hr ho]
      simp
    by_cases hq : q.2 = name
    · have horigeq : orig = (natToBytesBE 32 n).reverse := by
        rw [hq, horig] at ho
        exact Option.some.inj ho
      have ho2 : our2 q.2 = some (orig.set i b) := by
        rw [hour2, if_pos hq]
      have hfalse : ((natToBytesBE 32 n).reverse == orig.set i b) = false := by
        rw [← horigeq]
        exact beq_eq_false_iff_ne.mpr (set_single_byte_ne orig i b hi hne).symm
      have hone2F : compare_one risc0 our2 q =
          some { risc0Name := q.1, ourName := q.2,
                 risc0Hex := (natToBytesBE 32 n).reverse,
                 ourHex := orig.set i b, ok := false } := by
        rw [compare_one_eq risc0 our2 q n _ hn hr ho2]
        simp [hfalse]
      refine ⟨{ risc0Name := q.1, ourName := q.2,
                risc0Hex := (natToBytesBE 32 n).reverse,
                ourHex := (natToBytesBE 32 n).reverse, ok := true } :: ls,
              { risc0Name := q.1, ourName := q.2,
                risc0Hex := (natToBytesBE 32 n).reverse,
                ourHex := orig.set i b, ok := false } :: ls2,
              ?_, ?_, ?_, ?_, ?_⟩
      · rw [compare_constants_run_cons, honeT, hrun]
        rfl
      · rw [compare_constants_run_cons, hone2F, hrun2]
        rfl
      · intro l hl
        rcases List.mem_cons.mp hl with rfl | hl2
        · rfl
        · exact hok l hl2
      · exact List.Forall₂.cons ⟨rfl, fun hc => absurd hq hc, fun _ => rfl⟩ hrel
      · intro _
        exact ⟨_, List.mem_cons_self _ _, rfl⟩
    · have ho2 : our2 q.2 = some (natToBytesBE 32 n).reverse := by
        rw [hour2, if_neg hq, ho]
      have hone2T : compare_one risc0 our2 q =
          some { risc0Name := q.1, ourName := q.2,
                 risc0Hex := (natToBytesBE 32 n).reverse,
                 ourHex := (natToBytesBE 32 n).reverse, ok := true } := by
        rw [compare_one_eq risc0 our2 q n _ hn hr ho2]
        simp
      refine ⟨{ risc0Name := q.1, ourName := q.2,
                risc0Hex := (natToBytesBE 32 n).reverse,
                ourHex := (natToBytesBE 32 n).reverse, ok := true } :: ls,
              { risc0Name := q.1, ourName := q.2,
                risc0Hex := (natToBytesBE 32 n).reverse,
                ourHex := (natToBytesBE 32 n).reverse, ok := true } :: ls2,
              ?_, ?_, ?_, ?_, ?_⟩
      · rw [compare_constants_run_cons, honeT, hrun]
        rfl
      · rw [compare_constants_run_cons, hone2T, hrun2]
        rfl
      · intro l hl
        rcases List.mem_cons.mp hl with rfl | hl2
        · rfl
        · exact hok l hl2
      · exact List.Forall₂.cons ⟨rfl, fun _ => rfl, fun hc => absurd hc hq⟩ hrel
      · intro hmem
        have hmem2 : name = q.2 ∨ name ∈ rest.map Prod.snd := by
          simpa using hmem
        rcases hmem2 with heq | hmem3
        · exact absurd heq.symm hq
        · obtain ⟨l2, hl2, hfl⟩ := hmm hmem3
          exact ⟨l2, List.mem_cons_of_mem _ hl2, hfl⟩

/-- Witness for Claim C6 on the sample tables: one mapped pair derived from
the integer 5; byte 0 of the hex entry flipped from 5 to 7. -/
theorem compare_match_and_single_byte_flip_witness :
    ∃ lines lines2,
      compare_constants_run risc0Sample ourSample [("X", "Y")] = some lines ∧
      compare_constants_run risc0Sample ourSampleFlipped [("X", "Y")] = some lines2 ∧
      (∀ l ∈ lines, l.ok = true) ∧
      List.Forall₂ (fun l l2 =>
        l2.ourName = l.ourName ∧
        (l.ourName ≠ "Y" → l2 = l) ∧
        (l.ourName = "Y" → l2.ok = false)) lines lines2 ∧
      ("Y" ∈ [("X", "Y")].map Prod.snd → ∃ l2 ∈ lines2, l2.ok = false) :=
  compare_match_and_single_byte_flip risc0Sample ourSample ourSampleFlipped
    [("X", "Y")]
    (by
      intro p hp
      rw [List.mem_singleton] at hp
      subst hp
      exact ⟨5, by norm_num, by decide, by decide⟩)
    "Y" (natToBytesBE 32 5).reverse 0 7 (by decide) (by decide) (by decide)
    (by decide) (fun s => rfl)

/-- Claim C7: when no lookup error aborts the run, every mapped pair is
compared (one result line per mapped pair — no short-circuiting), the
mismatch list collects exactly the non-matching lines (with both names and
both canonical values), and the completion status is 0 iff every compared
pair matched, 1 iff at least one pair mismatched. -/
theorem compare_exit_status (risc0 : String → Option Nat)
    (our : String → Option (List Nat)) (maps : List (String × String))
    (lines : List CompareLine)
    (hrun : compare_constants_run risc0 our maps = some lines) :
    lines.length = maps.length ∧
    (compareExitCode lines = 0 ↔ ∀ l ∈ lines, l.ok = true) ∧
    (compareExitCode lines = 1 ↔ ∃ l ∈ lines, l.ok = false) ∧
    (compareExitCode lines = 0 ↔ mismatchesOf lines = []) ∧
    (∀ l ∈ lines, l.ok = false → l ∈ mismatchesOf lines) := by
  have hexit : compareExitCode lines = 0 ↔ (lines.all fun l => l.ok) = true := by
    cases hall : lines.all fun l => l.ok <;> simp [compareExitCode, hall]
  have hexit1 : compareExitCode lines = 1 ↔ (lines.all fun l => l.ok) = false := by
    cases hall : lines.all fun l => l.ok <;> simp [compareExitCode, hall]
  have halliff : (lines.all fun l => l.ok) = true ↔ ∀ l ∈ lines, l.ok = true :=
    List.all_eq_true
  have hallf : (lines.all fun l => l.ok) = false ↔ ∃ l ∈ lines, l.ok = false := by
    simp [List.all_eq_false]
  have hmis : mismatchesOf lines = [] ↔ ∀ l ∈ lines, l.ok = true := by
    simp [mismatchesOf, List.filter_eq_nil_iff]
  refine ⟨compare_constants_run_length risc0 our maps lines hrun,
    hexit.trans halliff, hexit1.trans hallf,
    hexit.trans (halliff.trans hmis.symm), ?_⟩
  intro l hl hfl
  simp [mismatchesOf, List.mem_filter, hl, hfl]

/-- Witness for Claim C7 on a single matching pair. -/
theorem compare_exit_status_witness :
    [sampleLine].length = [("X", "Y")].length ∧
    (compareExitCode [sampleLine] = 0 ↔ ∀ l ∈ [sampleLine], l.ok = true) ∧
    (compareExitCode [sampleLine] = 1 ↔ ∃ l ∈ [sampleLine], l.ok = false) ∧
    (compareExitCode [sampleLine] = 0 ↔ mismatchesOf [sampleLine] = []) ∧
    (∀ l ∈ [sampleLine], l.ok = false → l ∈ mismatchesOf [sampleLine]) :=
  compare_exit_status risc0Sample ourSample [("X", "Y")] [sampleLine] (by decide)

end PayrollScripts
